import Mathlib

/-!
Verification development for the lesson-delivery bot (`bot.py`).

The Python source is shallowly embedded: pure helpers become Lean
functions over `String` / `List Char`; the per-user SQLite row becomes a
`UserProgress` structure and the database view of a single user an
`Option UserProgress`; every handler becomes a state-transition function
returning the new stored state together with the list of user-visible
replies it emits.  Network effects (content fetch, transcription) are
passed in as explicit oracles.  Python floats are modelled as exact
rationals (the constants involved — 0.75, 1.0, 0.0 and `difflib` ratios
on short strings — are exactly representable).
-/

/-- Python truthiness helper: `s or d` for strings (empty string is falsy). -/
def orStr (s d : String) : String := if s = "" then d else s

/-- Python truthiness helper: `n or d` for integers (0 is falsy); the bot's
`idx`/`correct_count` columns are non-negative, so `Nat` suffices. -/
def orNat (n d : Nat) : Nat := if n = 0 then d else n

/-- The fixed punctuation set removed by `normalize_text`
(`".,!?;:\"'()[]{}«»—–-"` in the source); quote, apostrophe and brace
characters are written via their code points. -/
def punctChars : List Char :=
  ['.', ',', '!', '?', ';', ':', Char.ofNat 34, Char.ofNat 39,
   '(', ')', '[', ']', Char.ofNat 123, Char.ofNat 125,
   '«', '»', '—', '–', '-']

/-- `t.replace(ch, "")` for a single character is a filter; the source's
loop over the punctuation string is the corresponding left fold. -/
def removePunct (l : List Char) : List Char :=
  punctChars.foldl (fun s ch => s.filter (fun c => c ≠ ch)) l

/-- Whitespace test used for Python `str.strip` / `str.split`. -/
def isWs (c : Char) : Bool := c.isWhitespace

/-- Python `str.strip()`: drop leading and trailing whitespace. -/
def stripWs (l : List Char) : List Char :=
  ((l.dropWhile isWs).reverse.dropWhile isWs).reverse

/-- Python `str.strip()` on strings (the library `String.trim` has the
same meaning but does not evaluate inside the kernel). -/
def pyStrip (s : String) : String := String.mk (stripWs s.data)

/-- One step of splitting on whitespace: a whitespace character opens a
new (possibly empty) fragment, any other character extends the current
one. -/
def splitStep (c : Char) (acc : List (List Char)) : List (List Char) :=
  if isWs c then [] :: acc
  else
    match acc with
    | [] => [[c]]
    | w :: ws => (c :: w) :: ws

/-- Python `str.split()` with no argument: split on whitespace runs,
discarding empty fragments. -/
def splitWs (l : List Char) : List (List Char) :=
  (l.foldr splitStep []).filter (fun w => !w.isEmpty)

/-- `" ".join(words)`: interleave single spaces between the words. -/
def joinWords : List (List Char) → List Char
  | [] => []
  | [w] => w
  | w :: ws => w ++ ' ' :: joinWords ws

/-- `normalize_text` from the source: falsy guard, lower-case, strip,
remove the punctuation set, collapse whitespace via `" ".join(t.split())`.
`Char.toLower` is the ASCII case map; the inputs exercised by the spec are
ASCII or already lower-case. -/
def normalize_text (t : String) : String :=
  if t = "" then ""
  else String.mk (joinWords (splitWs (removePunct (stripWs (t.data.map Char.toLower)))))

/-- Length of the common prefix of two character sequences. -/
def commonPrefixLen : List Char → List Char → Nat
  | a :: as, b :: bs => if a = b then commonPrefixLen as bs + 1 else 0
  | _, _ => 0

/-- All matching-block candidates `(i, j, k)`: at each pair of start
positions, the length of the run of equal characters. -/
def lmCandidates (a b : List Char) : List (Nat × Nat × Nat) :=
  (List.range a.length).flatMap (fun i =>
    (List.range b.length).map (fun j => (i, j, commonPrefixLen (a.drop i) (b.drop j))))

/-- Keep the strictly longer candidate (first maximum wins, matching
`difflib`'s earliest-in-`a`, then earliest-in-`b` tie break). -/
def pickBetter (best c : Nat × Nat × Nat) : Nat × Nat × Nat :=
  if best.2.2 < c.2.2 then c else best

/-- `difflib.SequenceMatcher.find_longest_match` with `isjunk=None`,
modelled extensionally: the longest matching block, earliest start
positions on ties; `(0,0,0)` when there is none.  (The `autojunk`
popularity heuristic, which only engages for sequences of length ≥ 200,
is not modelled.) -/
def findLongestMatch (a b : List Char) : Nat × Nat × Nat :=
  (lmCandidates a b).foldl pickBetter (0, 0, 0)

/-- Total size of the matching blocks: recursively take the longest
match and recurse on the pieces to its left and to its right, exactly as
`SequenceMatcher.get_matching_blocks` does.  Structured with fuel so the
definition is structural; each recursive call strictly shrinks the first
sequence, so fuel `a.length` is always sufficient. -/
def matchTotalF : Nat → List Char → List Char → Nat
  | 0, _, _ => 0
  | Nat.succ n, a, b =>
    let m := findLongestMatch a b
    if m.2.2 = 0 then 0
    else
      matchTotalF n (a.take m.1) (b.take m.2.1) + m.2.2 +
      matchTotalF n (a.drop (m.1 + m.2.2)) (b.drop (m.2.1 + m.2.2))

/-- Number of matching characters between `a` and `b`. -/
def matchTotal (a b : List Char) : Nat := matchTotalF a.length a b

/-- `difflib._calculate_ratio`: `2.0 * matches / length`, and `1.0` when
both sequences are empty. -/
def calcRatio (m length : Nat) : ℚ :=
  if length = 0 then 1 else 2 * (m : ℚ) / (length : ℚ)

/-- `SequenceMatcher(None, a, b).ratio()`. -/
def seqRatio (a b : List Char) : ℚ := calcRatio (matchTotal a b) (a.length + b.length)

/-- `similarity` from the source: normalize both, `0.0` if either
normalized form is empty, else the sequence-matcher ratio. -/
def similarity (a b : String) : ℚ :=
  let a_n := normalize_text a
  let b_n := normalize_text b
  if a_n = "" ∨ b_n = "" then 0 else seqRatio a_n.data b_n.data

/-- The fixed acceptance threshold `THRESHOLD = 0.75` shared by the voice
and text verifiers. -/
def THRESHOLD : ℚ := 75 / 100

/-- `map_level_label_to_folder`: Uzbek UI labels to folder names, with
`easy` as the default. -/
def map_level_label_to_folder (label : String) : String :=
  let key := String.mk (label.data.map Char.toLower)
  if key = "oson" then "easy"
  else if key = "o\x27rtacha" then "medium"
  else if key = "ortacha" then "medium"
  else if key = "qiyin" then "hard"
  else "easy"

/-- Result of the HTTP GET issued by `fetch_text_from_base`: either a
response with a status code and body, or an exception during the
request. -/
inductive HttpResult where
  | ok (status : Nat) (body : String)
  | error
deriving DecidableEq

/-- The URL `{BASE_URL}/{level_folder}/{idx}.txt`. -/
def lessonUrl (baseUrl level_folder : String) (idx : Nat) : String :=
  baseUrl ++ "/" ++ level_folder ++ "/" ++ toString idx ++ ".txt"

/-- `fetch_text_from_base`: empty string when `BASE_URL` is unset; the
trimmed body on a 200 response; empty string on any other status or on a
raised exception.  The network is an explicit oracle from URL to
`HttpResult`, so the function is total: no exception reaches the
caller. -/
def fetch_text_from_base (baseUrl : String) (net : String → HttpResult)
    (level_folder : String) (idx : Nat) : String :=
  if baseUrl = "" then ""
  else
    match net (lessonUrl baseUrl level_folder idx) with
    | HttpResult.error => ""
    | HttpResult.ok status body => if status = 200 then pyStrip body else ""

/-- One row of the `users` table. -/
structure UserProgress where
  user_id : Nat
  chat_id : Nat
  level : String
  idx : Nat
  awaiting : Bool
  correct_count : Nat
  expected_text : String
deriving DecidableEq

/-- `create_or_update_user`: insert with Python-truthiness defaults
(`level or ""`, `idx or 1`, `int(bool(awaiting))`, `correct_count or 0`,
`expected_text or ""`) when no row exists; otherwise update exactly the
fields passed as non-`None` (the `chat_id` argument is never written on
an existing row). -/
def create_or_update_user (db : Option UserProgress) (user_id chat_id : Nat)
    (level : Option String) (idx : Option Nat) (awaiting : Option Bool)
    (correct_count : Option Nat) (expected_text : Option String) :
    Option UserProgress :=
  match db with
  | none =>
      some ⟨user_id, chat_id,
        (match level with | none => "" | some l => l),
        (match idx with | none => 1 | some n => orNat n 1),
        (match awaiting with | none => false | some a => a),
        (match correct_count with | none => 0 | some c => c),
        (match expected_text with | none => "" | some e => e)⟩
  | some u =>
      some ⟨u.user_id, u.chat_id,
        level.getD u.level, idx.getD u.idx, awaiting.getD u.awaiting,
        correct_count.getD u.correct_count, expected_text.getD u.expected_text⟩

/-- The user-visible replies the handlers emit, abstracted from their
message text. -/
inductive Reply where
  /-- "Sizning holatingiz topilmadi." alert (no stored state). -/
  | noState
  /-- Level-completion congratulation. -/
  | completion
  /-- A lesson presentation for (level folder, index, expected text). -/
  | lesson (level : String) (idx : Nat) (text : String)
  /-- Retry prompt asking for a new submission. -/
  | retryPrompt
  /-- "Skipped, next word coming" notice. -/
  | skipped
  /-- "Moving to the next word" notice. -/
  | advanced
  /-- Accepted-answer confirmation. -/
  | correct
  /-- Rejected-answer notice. -/
  | incorrect
  /-- "Hozir topshiriq yo\x27q" (nothing pending) notice. -/
  | noTask
deriving DecidableEq

/-- Placeholder substituted when the content gateway returns nothing:
`f"[{level_folder} - {idx}] (matn mavjud emas. Admin faylni joylang.)"`. -/
def placeholderText (level_folder : String) (idx : Nat) : String :=
  "[" ++ level_folder ++ " - " ++ toString idx ++ "] (matn mavjud emas. Admin faylni joylang.)"

/-- The lesson text stored by `send_lesson_for_user`: the gateway result,
or the placeholder when that is empty.  `fetch` is the oracle standing
for `fetch_text_from_base` applied to the configured base URL and
network. -/
def contentOf (fetch : String → Nat → String) (level_folder : String) (idx : Nat) : String :=
  let t := fetch level_folder idx
  if t = "" then placeholderText level_folder idx else t

/-- `send_lesson_for_user`: no-op when the row is absent; on
`idx > LESSONS_PER_LEVEL` emit the completion message and reset
`idx=1, awaiting=0, correct_count=0, expected_text=""`; otherwise store
the (fallback-substituted) content as `expected_text`, set
`awaiting=1`, and present the lesson.  `L` is `LESSONS_PER_LEVEL`. -/
def send_lesson_for_user (L : Nat) (fetch : String → Nat → String)
    (db : Option UserProgress) : Option UserProgress × List Reply :=
  match db with
  | none => (none, [])
  | some u =>
      let level := orStr u.level "easy"
      let idx := orNat u.idx 1
      if idx > L then
        (create_or_update_user (some u) u.user_id u.chat_id none (some 1) (some false)
          (some 0) (some ""), [Reply.completion])
      else
        let text_content := contentOf fetch level idx
        (create_or_update_user (some u) u.user_id u.chat_id none none (some true)
          none (some text_content), [Reply.lesson level idx text_content])

/-- The `/start` handler's state effect: `create_or_update_user(user_id,
chat_id, level=None, idx=1, awaiting=0, correct_count=0,
expected_text="")`. -/
def startOp (user_id chat_id : Nat) (db : Option UserProgress) : Option UserProgress :=
  create_or_update_user db user_id chat_id none (some 1) (some false) (some 0) (some "")

/-- The `level:<label>` callback: map the label to a folder, reset the
row for that level, then send the first lesson. -/
def select_level (L : Nat) (fetch : String → Nat → String) (label : String)
    (user_id chat_id : Nat) (db : Option UserProgress) : Option UserProgress × List Reply :=
  let folder := map_level_label_to_folder label
  let db1 := create_or_update_user db user_id chat_id (some folder) (some 1) (some false)
    (some 0) (some "")
  send_lesson_for_user L fetch db1

/-- The `action:retry` callback: `create_or_update_user(user_id, chat_id,
awaiting=1)` and a re-prompt — with no existence check, so an absent row
is silently inserted. -/
def retryOp (user_id chat_id : Nat) (db : Option UserProgress) : Option UserProgress × List Reply :=
  (create_or_update_user db user_id chat_id none none (some true) none none,
   [Reply.retryPrompt])

/-- The `action:skip` callback: reject with a "no state" alert when the
row is absent; otherwise increment the index; past `LESSONS_PER_LEVEL`
emit completion and reset `awaiting=0, idx=1, expected_text=""`
(`correct_count` untouched); else store the incremented index with
`awaiting=0, expected_text=""` and send the next lesson. -/
def skipOp (L : Nat) (fetch : String → Nat → String) (user_id chat_id : Nat)
    (db : Option UserProgress) : Option UserProgress × List Reply :=
  match db with
  | none => (none, [Reply.noState])
  | some u =>
      let new_idx := orNat u.idx 1 + 1
      if new_idx > L then
        (create_or_update_user (some u) user_id chat_id none (some 1) (some false)
          none (some ""), [Reply.completion])
      else
        let db1 := create_or_update_user (some u) user_id chat_id none (some new_idx)
          (some false) none (some "")
        let r := send_lesson_for_user L fetch db1
        (r.1, Reply.skipped :: r.2)

/-- The `action:next` callback: identical transition to `action:skip` up
to message text. -/
def nextOp (L : Nat) (fetch : String → Nat → String) (user_id chat_id : Nat)
    (db : Option UserProgress) : Option UserProgress × List Reply :=
  match db with
  | none => (none, [Reply.noState])
  | some u =>
      let new_idx := orNat u.idx 1 + 1
      if new_idx > L then
        (create_or_update_user (some u) user_id chat_id none (some 1) (some false)
          none (some ""), [Reply.completion])
      else
        let db1 := create_or_update_user (some u) user_id chat_id none (some new_idx)
          (some false) none (some "")
        let r := send_lesson_for_user L fetch db1
        (r.1, Reply.advanced :: r.2)

/-- The expected text the verifiers compare against: the stored
`expected_text` stripped, re-fetched from the gateway when empty. -/
def effectiveExpected (fetch : String → Nat → String) (u : UserProgress) : String :=
  let e := pyStrip u.expected_text
  if e = "" then fetch u.level u.idx else e

/-- `voice_message_handler`, after a successful transcription
`transcribed`: reply "nothing pending" and change nothing unless a row
exists with `awaiting`; otherwise score the transcription against the
effective expected text: at or above `THRESHOLD` clear `awaiting` and
bump `correct_count`; below it leave the row unchanged.  (The earlier
bail-out paths — download or transcription failure, missing API key —
also leave the row unchanged and are not modelled separately.) -/
def voice_verify (fetch : String → Nat → String) (transcribed : String)
    (user_id chat_id : Nat) (db : Option UserProgress) : Option UserProgress × List Reply :=
  match db with
  | none => (none, [Reply.noTask])
  | some u =>
      if u.awaiting = false then (some u, [Reply.noTask])
      else
        let expected := effectiveExpected fetch u
        let sim := similarity expected transcribed
        if THRESHOLD ≤ sim then
          (create_or_update_user (some u) user_id chat_id none none (some false)
            (some (orNat u.correct_count 0 + 1)) none, [Reply.correct])
        else (some u, [Reply.incorrect])

/-- `text_message_handler`: silently return (no reply at all) unless a
row exists with `awaiting`; otherwise score the stripped message text
exactly as the voice path does, with the same threshold. -/
def text_verify (fetch : String → Nat → String) (msg : String)
    (user_id chat_id : Nat) (db : Option UserProgress) : Option UserProgress × List Reply :=
  match db with
  | none => (none, [])
  | some u =>
      if u.awaiting = false then (some u, [])
      else
        let user_answer := pyStrip msg
        let expected := effectiveExpected fetch u
        let sim := similarity expected user_answer
        if THRESHOLD ≤ sim then
          (create_or_update_user (some u) user_id chat_id none none (some false)
            (some (orNat u.correct_count 0 + 1)) none, [Reply.correct])
        else (some u, [Reply.incorrect])

/-! ### Lemmas about the sequence matcher -/

theorem commonPrefixLen_le_left (a : List Char) : ∀ b, commonPrefixLen a b ≤ a.length := by
  induction a with
  | nil => intro b; cases b <;> simp [commonPrefixLen]
  | cons x xs ih =>
    intro b
    cases b with
    | nil => simp [commonPrefixLen]
    | cons y ys =>
      simp only [commonPrefixLen, List.length_cons]
      split
      · have := ih ys; omega
      · omega

theorem commonPrefixLen_le_right (a : List Char) : ∀ b, commonPrefixLen a b ≤ b.length := by
  induction a with
  | nil => intro b; cases b <;> simp [commonPrefixLen]
  | cons x xs ih =>
    intro b
    cases b with
    | nil => simp [commonPrefixLen]
    | cons y ys =>
      simp only [commonPrefixLen, List.length_cons]
      split
      · have := ih ys; omega
      · omega

theorem commonPrefixLen_self (l : List Char) : commonPrefixLen l l = l.length := by
  induction l with
  | nil => rfl
  | cons x xs ih => simp [commonPrefixLen, ih]

theorem foldl_pickBetter_pred (P : Nat × Nat × Nat → Prop) :
    ∀ (l : List (Nat × Nat × Nat)) (init : Nat × Nat × Nat),
      P init → (∀ c ∈ l, P c) → P (l.foldl pickBetter init) := by
  intro l
  induction l with
  | nil => intro init h _; exact h
  | cons c cs ih =>
    intro init hinit hall
    simp only [List.foldl_cons]
    apply ih
    · unfold pickBetter
      split
      · exact hall c (List.mem_cons_self c cs)
      · exact hinit
    · intro d hd; exact hall d (List.mem_cons_of_mem c hd)

theorem foldl_pickBetter_ge :
    ∀ (l : List (Nat × Nat × Nat)) (init c : Nat × Nat × Nat),
      c ∈ l → c.2.2 ≤ (l.foldl pickBetter init).2.2 := by
  have hinit : ∀ (l : List (Nat × Nat × Nat)) (init : Nat × Nat × Nat),
      init.2.2 ≤ (l.foldl pickBetter init).2.2 := by
    intro l
    induction l with
    | nil => intro init; exact le_rfl
    | cons c cs ih =>
      intro init
      simp only [List.foldl_cons]
      refine le_trans ?_ (ih (pickBetter init c))
      unfold pickBetter
      split <;> omega
  intro l
  induction l with
  | nil => intro init c hc; cases hc
  | cons d ds ih =>
    intro init c hc
    simp only [List.foldl_cons]
    rcases List.mem_cons.mp hc with rfl | hc
    · refine le_trans ?_ (hinit ds (pickBetter init c))
      unfold pickBetter
      split <;> omega
    · exact ih (pickBetter init d) c hc

theorem mem_lmCandidates {a b : List Char} {c : Nat × Nat × Nat}
    (hc : c ∈ lmCandidates a b) :
    ∃ i j, i < a.length ∧ j < b.length ∧
      c = (i, j, commonPrefixLen (a.drop i) (b.drop j)) := by
  unfold lmCandidates at hc
  rw [List.mem_flatMap] at hc
  obtain ⟨i, hi, hc⟩ := hc
  rw [List.mem_map] at hc
  obtain ⟨j, hj, rfl⟩ := hc
  exact ⟨i, j, List.mem_range.mp hi, List.mem_range.mp hj, rfl⟩

theorem findLongestMatch_bounds (a b : List Char) :
    (findLongestMatch a b).1 + (findLongestMatch a b).2.2 ≤ a.length ∧
    (findLongestMatch a b).2.1 + (findLongestMatch a b).2.2 ≤ b.length := by
  unfold findLongestMatch
  apply foldl_pickBetter_pred
    (fun c => c.1 + c.2.2 ≤ a.length ∧ c.2.1 + c.2.2 ≤ b.length)
  · simp
  · intro c hc
    obtain ⟨i, j, hi, hj, rfl⟩ := mem_lmCandidates hc
    have h1 := commonPrefixLen_le_left (a.drop i) (b.drop j)
    have h2 := commonPrefixLen_le_right (a.drop i) (b.drop j)
    rw [List.length_drop] at h1
    rw [List.length_drop] at h2
    exact ⟨by simp; omega, by simp; omega⟩

theorem findLongestMatch_self {l : List Char} (h : l ≠ []) :
    findLongestMatch l l = (0, 0, l.length) := by
  have hpos : 0 < l.length := List.length_pos.mpr h
  have hk : (findLongestMatch l l).2.2 = l.length := by
    apply le_antisymm
    · have := (findLongestMatch_bounds l l).1; omega
    · have hmem : ((0, 0, l.length) : Nat × Nat × Nat) ∈ lmCandidates l l := by
        unfold lmCandidates
        rw [List.mem_flatMap]
        refine ⟨0, List.mem_range.mpr hpos, ?_⟩
        rw [List.mem_map]
        exact ⟨0, List.mem_range.mpr hpos, by simp [commonPrefixLen_self]⟩
      exact foldl_pickBetter_ge _ _ _ hmem
  obtain ⟨h1, h2⟩ := findLongestMatch_bounds l l
  rw [Prod.ext_iff, Prod.ext_iff]
  refine ⟨?_, ?_, ?_⟩
  · show (findLongestMatch l l).1 = 0
    omega
  · show (findLongestMatch l l).2.1 = 0
    omega
  · exact hk

theorem matchTotalF_nil_left (n : Nat) (b : List Char) : matchTotalF n [] b = 0 := by
  cases n with
  | zero => rfl
  | succ n => simp [matchTotalF, findLongestMatch, lmCandidates]

theorem matchTotalF_le (n : Nat) :
    ∀ a b : List Char, a.length ≤ n →
      matchTotalF n a b ≤ a.length ∧ matchTotalF n a b ≤ b.length := by
  induction n with
  | zero => intro a b _; simp [matchTotalF]
  | succ n ih =>
    intro a b hlen
    simp only [matchTotalF]
    by_cases h0 : (findLongestMatch a b).2.2 = 0
    · simp [h0]
    · rw [if_neg h0]
      obtain ⟨hb1, hb2⟩ := findLongestMatch_bounds a b
      have t1 := ih (a.take (findLongestMatch a b).1) (b.take (findLongestMatch a b).2.1)
        (by rw [List.length_take]; omega)
      have t2 := ih (a.drop ((findLongestMatch a b).1 + (findLongestMatch a b).2.2))
        (b.drop ((findLongestMatch a b).2.1 + (findLongestMatch a b).2.2))
        (by rw [List.length_drop]; omega)
      rw [List.length_take] at t1
      rw [List.length_take] at t1
      rw [List.length_drop] at t2
      rw [List.length_drop] at t2
      constructor <;> omega

theorem matchTotal_le (a b : List Char) :
    matchTotal a b ≤ a.length ∧ matchTotal a b ≤ b.length :=
  matchTotalF_le a.length a b le_rfl

theorem matchTotalF_self (n : Nat) :
    ∀ l : List Char, l.length ≤ n → matchTotalF n l l = l.length := by
  induction n with
  | zero =>
    intro l h
    have : l = [] := List.length_eq_zero.mp (by omega)
    subst this
    rfl
  | succ n ih =>
    intro l hlen
    by_cases hl : l = []
    · subst hl; simp [matchTotalF_nil_left]
    · simp [matchTotalF, findLongestMatch_self hl, List.length_eq_zero, hl,
        matchTotalF_nil_left]

theorem matchTotal_self (l : List Char) : matchTotal l l = l.length :=
  matchTotalF_self l.length l le_rfl

/-! ### Lemmas about the ratio and similarity -/

theorem stringDataNe {s : String} (h : s ≠ "") : s.data ≠ [] := by
  intro hd
  apply h
  cases s
  simp_all

theorem seqRatio_nonneg (a b : List Char) : 0 ≤ seqRatio a b := by
  unfold seqRatio calcRatio
  split
  · norm_num
  · positivity

theorem seqRatio_le_one (a b : List Char) : seqRatio a b ≤ 1 := by
  unfold seqRatio calcRatio
  split
  · norm_num
  · rename_i hT
    obtain ⟨h1, h2⟩ := matchTotal_le a b
    rw [div_le_one (by positivity)]
    have hc1 : (matchTotal a b : ℚ) ≤ a.length := by exact_mod_cast h1
    have hc2 : (matchTotal a b : ℚ) ≤ b.length := by exact_mod_cast h2
    push_cast
    linarith

theorem seqRatio_self {l : List Char} (h : l ≠ []) : seqRatio l l = 1 := by
  have hlen : l.length ≠ 0 := fun h0 => h (List.length_eq_zero.mp h0)
  unfold seqRatio calcRatio
  rw [if_neg (by omega), matchTotal_self]
  have hq : (l.length : ℚ) ≠ 0 := by exact_mod_cast hlen
  push_cast
  field_simp
  ring

theorem similarity_empty {a b : String}
    (h : normalize_text a = "" ∨ normalize_text b = "") : similarity a b = 0 := by
  simp only [similarity]
  rw [if_pos h]

theorem similarity_eq_ratio {a b : String}
    (h : ¬(normalize_text a = "" ∨ normalize_text b = "")) :
    similarity a b = seqRatio (normalize_text a).data (normalize_text b).data := by
  simp only [similarity]
  rw [if_neg h]

/-- Evaluation form of `similarity` when neither normalized input is
empty: the `difflib` ratio `2 m / (la + lb)` on the normalized data. -/
theorem similarity_eval (a b : String) (hna : normalize_text a ≠ "")
    (hnb : normalize_text b ≠ "") :
    similarity a b =
      2 * (matchTotal (normalize_text a).data (normalize_text b).data : ℚ) /
        (((normalize_text a).data.length : ℚ) + ((normalize_text b).data.length : ℚ)) := by
  rw [similarity_eq_ratio (by tauto)]
  unfold seqRatio calcRatio
  have hla : (normalize_text a).data ≠ [] := stringDataNe hna
  have hl0 : (normalize_text a).data.length ≠ 0 := fun h0 => hla (List.length_eq_zero.mp h0)
  rw [if_neg (by omega)]
  push_cast
  ring

theorem similarity_nonneg (a b : String) : 0 ≤ similarity a b := by
  by_cases h : normalize_text a = "" ∨ normalize_text b = ""
  · rw [similarity_empty h]
  · rw [similarity_eq_ratio h]
    exact seqRatio_nonneg _ _

theorem similarity_le_one (a b : String) : similarity a b ≤ 1 := by
  by_cases h : normalize_text a = "" ∨ normalize_text b = ""
  · rw [similarity_empty h]; norm_num
  · rw [similarity_eq_ratio h]
    exact seqRatio_le_one _ _

theorem similarity_of_norm_eq {a b : String} (heq : normalize_text a = normalize_text b)
    (hne : normalize_text a ≠ "") : similarity a b = 1 := by
  rw [similarity_eq_ratio (by rw [← heq]; tauto)]
  rw [← heq]
  exact seqRatio_self (stringDataNe hne)

/-- Concrete boundary value: `similarity "abc" "abcde"` is exactly `3/4`
(three matching characters, total length eight). -/
theorem sim_abc_abcde : similarity "abc" "abcde" = 3 / 4 := by
  rw [similarity_eval "abc" "abcde" (by decide) (by decide)]
  have hm : matchTotal (normalize_text "abc").data (normalize_text "abcde").data = 3 := by
    decide
  have hla : (normalize_text "abc").data.length = 3 := by decide
  have hlb : (normalize_text "abcde").data.length = 5 := by decide
  rw [hm, hla, hlb]
  norm_num

/-- Concrete value: punctuation-insensitive exact match scores `1`. -/
theorem sim_privet : similarity "привет" "привет!" = 1 :=
  similarity_of_norm_eq (by decide) (by decide)

/-! ### Lemmas about the normalizer -/

theorem toLower_idem (c : Char) : c.toLower.toLower = c.toLower := by
  by_cases h : c.toNat ≥ 65 ∧ c.toNat ≤ 90
  · have h1 : c.toLower = Char.ofNat (c.toNat + 32) := by
      simp only [Char.toLower]
      rw [if_pos h]
    have hv : (c.toNat + 32).isValidChar := Or.inl (by omega)
    have ht : (Char.ofNat (c.toNat + 32)).toNat = c.toNat + 32 := by
      simp [Char.ofNat, hv]
      rfl
    rw [h1]
    simp only [Char.toLower, ht]
    rw [if_neg (by omega)]
  · have h1 : c.toLower = c := by
      simp only [Char.toLower]
      rw [if_neg h]
    rw [h1, h1]

theorem mem_foldl_filter (ps : List Char) :
    ∀ (l : List Char) (c : Char),
      c ∈ ps.foldl (fun s ch => s.filter (fun x => x ≠ ch)) l →
      c ∈ l ∧ ∀ p ∈ ps, c ≠ p := by
  induction ps with
  | nil => intro l c hc; exact ⟨hc, by simp⟩
  | cons p ps ih =>
    intro l c hc
    rw [List.foldl_cons] at hc
    obtain ⟨hmem, hne⟩ := ih _ c hc
    rw [List.mem_filter] at hmem
    refine ⟨hmem.1, ?_⟩
    intro q hq
    rcases List.mem_cons.mp hq with rfl | hq
    · simpa using hmem.2
    · exact hne q hq

theorem mem_removePunct {l : List Char} {c : Char} (hc : c ∈ removePunct l) :
    c ∈ l ∧ c ∉ punctChars := by
  obtain ⟨hmem, hne⟩ := mem_foldl_filter punctChars l c hc
  exact ⟨hmem, fun hp => hne c hp rfl⟩

theorem mem_stripWs {l : List Char} {c : Char} (hc : c ∈ stripWs l) : c ∈ l := by
  unfold stripWs at hc
  rw [List.mem_reverse] at hc
  have h1 := (List.dropWhile_sublist isWs).mem hc
  rw [List.mem_reverse] at h1
  exact (List.dropWhile_sublist isWs).mem h1

theorem mem_foldr_splitStep :
    ∀ (l : List Char) (w : List Char), w ∈ l.foldr splitStep [] →
      ∀ c ∈ w, isWs c = false ∧ c ∈ l := by
  intro l
  induction l with
  | nil => simp
  | cons a t ih =>
    intro w hw c hc
    rw [List.foldr_cons] at hw
    cases hrest : t.foldr splitStep [] with
    | nil =>
      rw [hrest] at hw
      unfold splitStep at hw
      by_cases ha : isWs a
      · rw [if_pos ha] at hw
        rcases List.mem_cons.mp hw with rfl | hw
        · cases hc
        · cases hw
      · rw [if_neg ha] at hw
        rcases List.mem_cons.mp hw with rfl | hw
        · rcases List.mem_cons.mp hc with rfl | hc
          · exact ⟨by simpa using ha, by simp⟩
          · cases hc
        · cases hw
    | cons w0 ws0 =>
      rw [hrest] at hw
      unfold splitStep at hw
      by_cases ha : isWs a
      · rw [if_pos ha] at hw
        rcases List.mem_cons.mp hw with rfl | hw
        · cases hc
        · obtain ⟨h1, h2⟩ := ih w (hrest ▸ hw) c hc
          exact ⟨h1, List.mem_cons_of_mem a h2⟩
      · rw [if_neg ha] at hw
        rcases List.mem_cons.mp hw with rfl | hw
        · rcases List.mem_cons.mp hc with rfl | hc
          · exact ⟨by simpa using ha, by simp⟩
          · obtain ⟨h1, h2⟩ := ih w0 (hrest ▸ List.mem_cons_self w0 ws0) c hc
            exact ⟨h1, List.mem_cons_of_mem a h2⟩
        · obtain ⟨h1, h2⟩ := ih w (hrest ▸ List.mem_cons_of_mem w0 hw) c hc
          exact ⟨h1, List.mem_cons_of_mem a h2⟩

theorem splitWs_words {l : List Char} {w : List Char} (hw : w ∈ splitWs l) :
    w ≠ [] ∧ ∀ c ∈ w, isWs c = false ∧ c ∈ l := by
  unfold splitWs at hw
  rw [List.mem_filter] at hw
  refine ⟨?_, mem_foldr_splitStep l w hw.1⟩
  intro hnil
  subst hnil
  simpa using hw.2

theorem mem_joinWords : ∀ (ws : List (List Char)) (c : Char),
    c ∈ joinWords ws → c = ' ' ∨ ∃ w ∈ ws, c ∈ w := by
  intro ws
  induction ws with
  | nil => intro c hc; simp [joinWords] at hc
  | cons w ws ih =>
    intro c hc
    cases ws with
    | nil =>
      simp only [joinWords] at hc
      exact Or.inr ⟨w, List.mem_cons_self w [], hc⟩
    | cons w2 ws2 =>
      simp only [joinWords] at hc
      rcases List.mem_append.mp hc with hc | hc
      · exact Or.inr ⟨w, List.mem_cons_self _ _, hc⟩
      · rcases List.mem_cons.mp hc with rfl | hc
        · exact Or.inl rfl
        · rcases ih c hc with h | ⟨w', hw', hc'⟩
          · exact Or.inl h
          · exact Or.inr ⟨w', List.mem_cons_of_mem w hw', hc'⟩

theorem joinWords_ne_nil {w : List Char} (ws : List (List Char)) (hw : w ≠ []) :
    joinWords (w :: ws) ≠ [] := by
  cases ws with
  | nil => simpa [joinWords] using hw
  | cons w2 ws2 =>
    simp only [joinWords]
    intro h
    rcases List.append_eq_nil.mp h with ⟨_, h2⟩
    cases h2

theorem chain'_noSpace : ∀ (w : List Char), (∀ c ∈ w, c ≠ ' ') →
    List.Chain' (fun a b => ¬(a = ' ' ∧ b = ' ')) w := by
  intro w
  induction w with
  | nil => intro _; simp
  | cons a l ih =>
    intro h
    rw [List.chain'_cons']
    refine ⟨?_, ih fun c hc => h c (List.mem_cons_of_mem a hc)⟩
    intro y _ hy
    exact h a (List.mem_cons_self a l) hy.1

theorem joinWords_spec : ∀ (ws : List (List Char)),
    (∀ w ∈ ws, w ≠ [] ∧ ∀ c ∈ w, c ≠ ' ') →
    List.Chain' (fun a b => ¬(a = ' ' ∧ b = ' ')) (joinWords ws) ∧
    (∀ c ∈ (joinWords ws).head?, c ≠ ' ') ∧
    (∀ c ∈ (joinWords ws).getLast?, c ≠ ' ') := by
  intro ws
  induction ws with
  | nil => intro _; simp [joinWords]
  | cons w ws ih =>
    intro H
    have hw := H w (List.mem_cons_self w ws)
    cases ws with
    | nil =>
      simp only [joinWords]
      refine ⟨chain'_noSpace w hw.2, ?_, ?_⟩
      · intro c hc; exact hw.2 c (List.mem_of_mem_head? hc)
      · intro c hc; exact hw.2 c (List.mem_of_mem_getLast? hc)
    | cons w2 ws2 =>
      have hj := ih fun v hv => H v (List.mem_cons_of_mem w hv)
      have hw2 := H w2 (List.mem_cons_of_mem w (List.mem_cons_self w2 ws2))
      have hjne : joinWords (w2 :: ws2) ≠ [] := joinWords_ne_nil ws2 hw2.1
      simp only [joinWords]
      refine ⟨?_, ?_, ?_⟩
      · rw [List.chain'_append]
        refine ⟨chain'_noSpace w hw.2, ?_, ?_⟩
        · rw [List.chain'_cons']
          refine ⟨?_, hj.1⟩
          intro y hy hcontra
          exact hj.2.1 y hy hcontra.2
        · intro x hx y hy
          have : x ∈ w := List.mem_of_mem_getLast? hx
          intro hcontra
          exact hw.2 x this hcontra.1
      · obtain ⟨a, t, rfl⟩ : ∃ a t, w = a :: t := by
          cases w with
          | nil => exact absurd rfl hw.1
          | cons a t => exact ⟨a, t, rfl⟩
        intro c hc
        simp only [List.cons_append, List.head?_cons, Option.mem_def,
          Option.some.injEq] at hc
        subst hc
        exact hw.2 _ (List.mem_cons_self _ _)
      · rw [List.getLast?_append]
        cases hjl : (joinWords (w2 :: ws2)).getLast? with
        | none => exact absurd (List.getLast?_eq_none_iff.mp hjl) hjne
        | some z =>
          have hz : z ≠ ' ' := hj.2.2 z (by rw [hjl]; rfl)
          have : (' ' :: joinWords (w2 :: ws2)).getLast? = some z := by
            rw [show (' ' :: joinWords (w2 :: ws2)) = [' '] ++ joinWords (w2 :: ws2)
              from rfl, List.getLast?_append, hjl]
            rfl
          rw [this]
          intro c hc
          simp only [Option.or_some, Option.mem_def, Option.some.injEq] at hc
          subst hc
          exact hz

/-! ### Lemmas about the session controller -/

theorem placeholderText_ne (l : String) (i : Nat) : placeholderText l i ≠ "" := by
  intro h
  have hlen := congrArg String.length h
  unfold placeholderText at hlen
  simp only [String.length_append] at hlen
  have h1 : ("[" : String).length = 1 := rfl
  have h0 : ("" : String).length = 0 := rfl
  omega

theorem contentOf_ne (f : String → Nat → String) (l : String) (i : Nat) :
    contentOf f l i ≠ "" := by
  simp only [contentOf]
  split
  · exact placeholderText_ne l i
  · assumption

/-- The invariant of claim C3: whenever the stored row is awaiting an
answer, the expected text is non-empty. -/
def AwaitingInv (db : Option UserProgress) : Prop :=
  ∀ u, db = some u → u.awaiting = true → u.expected_text ≠ ""

theorem awaitingInv_none : AwaitingInv none := by
  intro u h
  cases h

theorem awaitingInv_startOp (user_id chat_id : Nat) (db : Option UserProgress) :
    AwaitingInv (startOp user_id chat_id db) := by
  intro u hu hw
  cases db <;>
    simp only [startOp, create_or_update_user, Option.getD_some, Option.getD_none,
      Option.some.injEq] at hu <;>
    subst hu <;> cases hw

theorem awaitingInv_send_lesson (L : Nat) (f : String → Nat → String)
    (db : Option UserProgress) : AwaitingInv (send_lesson_for_user L f db).1 := by
  cases db with
  | none => exact awaitingInv_none
  | some u =>
    intro v hv hw
    simp only [send_lesson_for_user] at hv
    split at hv
    · simp only [create_or_update_user, Option.getD_some, Option.getD_none,
        Option.some.injEq] at hv
      subst hv
      cases hw
    · simp only [create_or_update_user, Option.getD_some, Option.getD_none,
        Option.some.injEq] at hv
      subst hv
      exact contentOf_ne f _ _

theorem awaitingInv_select (L : Nat) (f : String → Nat → String) (lbl : String)
    (user_id chat_id : Nat) (db : Option UserProgress) :
    AwaitingInv (select_level L f lbl user_id chat_id db).1 := by
  unfold select_level
  exact awaitingInv_send_lesson L f _

theorem awaitingInv_retry {db : Option UserProgress} {u : UserProgress}
    (user_id chat_id : Nat) (hdb : db = some u) (hexp : u.expected_text ≠ "") :
    AwaitingInv (retryOp user_id chat_id db).1 := by
  subst hdb
  intro v hv _
  simp only [retryOp, create_or_update_user, Option.getD_some, Option.getD_none,
    Option.some.injEq] at hv
  subst hv
  exact hexp

theorem awaitingInv_skip (L : Nat) (f : String → Nat → String) (user_id chat_id : Nat)
    (db : Option UserProgress) : AwaitingInv (skipOp L f user_id chat_id db).1 := by
  cases db with
  | none => exact awaitingInv_none
  | some u =>
    simp only [skipOp]
    split
    · intro v hv hw
      simp only [create_or_update_user, Option.getD_some, Option.getD_none,
        Option.some.injEq] at hv
      subst hv
      cases hw
    · exact awaitingInv_send_lesson L f _

theorem awaitingInv_next (L : Nat) (f : String → Nat → String) (user_id chat_id : Nat)
    (db : Option UserProgress) : AwaitingInv (nextOp L f user_id chat_id db).1 := by
  cases db with
  | none => exact awaitingInv_none
  | some u =>
    simp only [nextOp]
    split
    · intro v hv hw
      simp only [create_or_update_user, Option.getD_some, Option.getD_none,
        Option.some.injEq] at hv
      subst hv
      cases hw
    · exact awaitingInv_send_lesson L f _

theorem awaitingInv_voice (f : String → Nat → String) (t : String)
    (user_id chat_id : Nat) {db : Option UserProgress} (hInv : AwaitingInv db) :
    AwaitingInv (voice_verify f t user_id chat_id db).1 := by
  cases db with
  | none => exact awaitingInv_none
  | some u =>
    simp only [voice_verify]
    split
    · rename_i haw
      intro v hv hw
      simp only [Option.some.injEq] at hv
      subst hv
      rw [haw] at hw
      cases hw
    · rename_i haw
      split
      · intro v hv hw
        simp only [create_or_update_user, Option.getD_some, Option.getD_none,
          Option.some.injEq] at hv
        subst hv
        cases hw
      · intro v hv hw
        simp only [Option.some.injEq] at hv
        subst hv
        exact hInv _ rfl hw

theorem awaitingInv_text (f : String → Nat → String) (t : String)
    (user_id chat_id : Nat) {db : Option UserProgress} (hInv : AwaitingInv db) :
    AwaitingInv (text_verify f t user_id chat_id db).1 := by
  cases db with
  | none => exact awaitingInv_none
  | some u =>
    simp only [text_verify]
    split
    · rename_i haw
      intro v hv hw
      simp only [Option.some.injEq] at hv
      subst hv
      rw [haw] at hw
      cases hw
    · rename_i haw
      split
      · intro v hv hw
        simp only [create_or_update_user, Option.getD_some, Option.getD_none,
          Option.some.injEq] at hv
        subst hv
        cases hw
      · intro v hv hw
        simp only [Option.some.injEq] at hv
        subst hv
        exact hInv _ rfl hw

/-- States reachable from the fresh user record by level selection,
lesson issuance, retry, skip, next, and answer verification, where retry
is only invoked while a lesson text is stored (the amendment claim C3
requires; an unguarded retry from the fresh record breaks the
invariant). -/
inductive Reach (user_id chat_id : Nat) : Option UserProgress → Prop where
  | fresh : Reach user_id chat_id (startOp user_id chat_id none)
  | level (s : Option UserProgress) (L : Nat) (f : String → Nat → String) (lbl : String) :
      Reach user_id chat_id s →
      Reach user_id chat_id (select_level L f lbl user_id chat_id s).1
  | issue (s : Option UserProgress) (L : Nat) (f : String → Nat → String) :
      Reach user_id chat_id s →
      Reach user_id chat_id (send_lesson_for_user L f s).1
  | retry (s : Option UserProgress) (u : UserProgress) :
      Reach user_id chat_id s → s = some u → u.expected_text ≠ "" →
      Reach user_id chat_id (retryOp user_id chat_id s).1
  | skip (s : Option UserProgress) (L : Nat) (f : String → Nat → String) :
      Reach user_id chat_id s →
      Reach user_id chat_id (skipOp L f user_id chat_id s).1
  | next (s : Option UserProgress) (L : Nat) (f : String → Nat → String) :
      Reach user_id chat_id s →
      Reach user_id chat_id (nextOp L f user_id chat_id s).1
  | voice (s : Option UserProgress) (f : String → Nat → String) (t : String) :
      Reach user_id chat_id s →
      Reach user_id chat_id (voice_verify f t user_id chat_id s).1
  | text (s : Option UserProgress) (f : String → Nat → String) (t : String) :
      Reach user_id chat_id s →
      Reach user_id chat_id (text_verify f t user_id chat_id s).1

theorem reach_awaitingInv {user_id chat_id : Nat} {s : Option UserProgress}
    (h : Reach user_id chat_id s) : AwaitingInv s := by
  induction h with
  | fresh => exact awaitingInv_startOp user_id chat_id none
  | level s L f lbl _ _ => exact awaitingInv_select L f lbl user_id chat_id s
  | issue s L f _ _ => exact awaitingInv_send_lesson L f s
  | retry s u _ hdb hexp _ => exact awaitingInv_retry user_id chat_id hdb hexp
  | skip s L f _ _ => exact awaitingInv_skip L f user_id chat_id s
  | next s L f _ _ => exact awaitingInv_next L f user_id chat_id s
  | voice s f t _ ih => exact awaitingInv_voice f t user_id chat_id ih
  | text s f t _ ih => exact awaitingInv_text f t user_id chat_id ih

theorem orNat_succ (n : Nat) : orNat (n + 1) 1 = n + 1 := by simp [orNat]

theorem orNat_zero_right (n : Nat) : orNat n 0 = n := by
  unfold orNat
  split <;> omega

theorem skipOp_complete {L : Nat} (f : String → Nat → String) (user_id chat_id : Nat)
    (u : UserProgress) (h : L < orNat u.idx 1 + 1) :
    skipOp L f user_id chat_id (some u) =
      (some ⟨u.user_id, u.chat_id, u.level, 1, false, u.correct_count, ""⟩,
       [Reply.completion]) := by
  simp only [skipOp]
  rw [if_pos h]
  rfl

theorem nextOp_complete {L : Nat} (f : String → Nat → String) (user_id chat_id : Nat)
    (u : UserProgress) (h : L < orNat u.idx 1 + 1) :
    nextOp L f user_id chat_id (some u) =
      (some ⟨u.user_id, u.chat_id, u.level, 1, false, u.correct_count, ""⟩,
       [Reply.completion]) := by
  simp only [nextOp]
  rw [if_pos h]
  rfl

theorem skipOp_issue {L : Nat} (f : String → Nat → String) (user_id chat_id : Nat)
    (u : UserProgress) (h : orNat u.idx 1 + 1 ≤ L) :
    skipOp L f user_id chat_id (some u) =
      (some ⟨u.user_id, u.chat_id, u.level, orNat u.idx 1 + 1, true, u.correct_count,
         contentOf f (orStr u.level "easy") (orNat u.idx 1 + 1)⟩,
       [Reply.skipped,
        Reply.lesson (orStr u.level "easy") (orNat u.idx 1 + 1)
          (contentOf f (orStr u.level "easy") (orNat u.idx 1 + 1))]) := by
  simp only [skipOp]
  rw [if_neg (by omega)]
  simp only [create_or_update_user, Option.getD_some, Option.getD_none,
    send_lesson_for_user, orNat_succ]
  rw [if_neg (by omega)]

theorem nextOp_issue {L : Nat} (f : String → Nat → String) (user_id chat_id : Nat)
    (u : UserProgress) (h : orNat u.idx 1 + 1 ≤ L) :
    nextOp L f user_id chat_id (some u) =
      (some ⟨u.user_id, u.chat_id, u.level, orNat u.idx 1 + 1, true, u.correct_count,
         contentOf f (orStr u.level "easy") (orNat u.idx 1 + 1)⟩,
       [Reply.advanced,
        Reply.lesson (orStr u.level "easy") (orNat u.idx 1 + 1)
          (contentOf f (orStr u.level "easy") (orNat u.idx 1 + 1))]) := by
  simp only [nextOp]
  rw [if_neg (by omega)]
  simp only [create_or_update_user, Option.getD_some, Option.getD_none,
    send_lesson_for_user, orNat_succ]
  rw [if_neg (by omega)]

/-- The row after issuing lesson `n` of the easy level to a fresh user
who has answered nothing yet. -/
def lessonState (user_id chat_id : Nat) (f : String → Nat → String) (n : Nat) :
    UserProgress :=
  ⟨user_id, chat_id, "easy", n, true, 0, contentOf f "easy" n⟩

theorem oson_easy : map_level_label_to_folder "oson" = "easy" := by decide

theorem select_oson_fresh (f : String → Nat → String) (user_id chat_id : Nat) :
    (select_level 25 f "oson" user_id chat_id none).1 =
      some (lessonState user_id chat_id f 1) := by
  have he : orStr "easy" "easy" = "easy" := by decide
  simp only [select_level, oson_easy, create_or_update_user, send_lesson_for_user,
    orNat, he, lessonState]
  norm_num

theorem skip_progression (f : String → Nat → String) (user_id chat_id : Nat) :
    ∀ n, n ≤ 24 →
      (fun s => (skipOp 25 f user_id chat_id s).1)^[n]
          (some (lessonState user_id chat_id f 1)) =
        some (lessonState user_id chat_id f (1 + n)) := by
  intro n
  induction n with
  | zero => intro _; simp
  | succ n ih =>
    intro h
    rw [Function.iterate_succ_apply', ih (by omega)]
    have hle : orNat (lessonState user_id chat_id f (1 + n)).idx 1 + 1 ≤ 25 := by
      show orNat (1 + n) 1 + 1 ≤ 25
      unfold orNat
      split <;> omega
    rw [skipOp_issue f user_id chat_id _ hle]
    have h3 : orNat (1 + n) 1 + 1 = n + 2 := by
      unfold orNat
      split <;> omega
    have h4 : orStr "easy" "easy" = "easy" := by decide
    have h2 : 1 + (n + 1) = n + 2 := by omega
    simp only [lessonState, h3, h4, h2]

/-! ### Normalizer contract -/

theorem normalize_text_chars (t : String) :
    ∀ c ∈ (normalize_text t).data,
      c ∉ punctChars ∧ c.toLower = c ∧ (c.isWhitespace = true → c = ' ') := by
  intro c hc
  by_cases ht : t = ""
  · subst ht
    simp [normalize_text] at hc
  · simp only [normalize_text, if_neg ht] at hc
    rcases mem_joinWords _ c hc with rfl | ⟨w, hw, hcw⟩
    · exact ⟨by decide, by decide, fun _ => rfl⟩
    · obtain ⟨hwne, hprops⟩ := splitWs_words hw
      obtain ⟨hnotws, hmem⟩ := hprops c hcw
      obtain ⟨hmem2, hnp⟩ := mem_removePunct hmem
      have hmem3 := mem_stripWs hmem2
      rw [List.mem_map] at hmem3
      obtain ⟨x, _, rfl⟩ := hmem3
      refine ⟨hnp, toLower_idem x, fun hws => ?_⟩
      exfalso
      simp only [isWs] at hnotws
      rw [hws] at hnotws
      cases hnotws

theorem normalize_text_shape (t : String) :
    List.Chain' (fun a b => ¬(a = ' ' ∧ b = ' ')) (normalize_text t).data ∧
    (∀ c ∈ (normalize_text t).data.head?, c ≠ ' ') ∧
    (∀ c ∈ (normalize_text t).data.getLast?, c ≠ ' ') := by
  by_cases ht : t = ""
  · subst ht
    simp [normalize_text]
  · simp only [normalize_text, if_neg ht]
    refine joinWords_spec _ ?_
    intro w hw
    obtain ⟨hne, hp⟩ := splitWs_words hw
    refine ⟨hne, fun c hc hsp => ?_⟩
    have h1 := (hp c hc).1
    subst hsp
    exact absurd h1 (by decide)

/-! ### Claim theorems -/

/-- C1 (amended): a skip or next action on an existing row increments the
position; when the new position exceeds `LESSONS_PER_LEVEL` a completion
notice is emitted and the state resets `position = 1`,
`awaiting_answer = false`, `expected_text = ""` — but `correct_count` is
left unchanged (the claimed reset of `correct_count` to 0 does not happen
on this path); otherwise awaiting/expected are cleared and the next
lesson is issued (re-setting awaiting with the fetched or placeholder
text).  In particular, from a fresh "oson" level selection with
`LESSONS_PER_LEVEL = 25`, `n ≤ 24` skips reach position `1 + n` with no
completion, and a skip at position 25 completes with position 1 and
`correct_count 0` (0 only because no answer was ever accepted). -/
theorem c1_skip_next_transition :
    (∀ (L : Nat) (f : String → Nat → String) (user_id chat_id : Nat) (u : UserProgress),
      (L < orNat u.idx 1 + 1 →
        skipOp L f user_id chat_id (some u) =
          (some ⟨u.user_id, u.chat_id, u.level, 1, false, u.correct_count, ""⟩,
           [Reply.completion]) ∧
        nextOp L f user_id chat_id (some u) =
          (some ⟨u.user_id, u.chat_id, u.level, 1, false, u.correct_count, ""⟩,
           [Reply.completion])) ∧
      (orNat u.idx 1 + 1 ≤ L →
        skipOp L f user_id chat_id (some u) =
          (some ⟨u.user_id, u.chat_id, u.level, orNat u.idx 1 + 1, true, u.correct_count,
             contentOf f (orStr u.level "easy") (orNat u.idx 1 + 1)⟩,
           [Reply.skipped,
            Reply.lesson (orStr u.level "easy") (orNat u.idx 1 + 1)
              (contentOf f (orStr u.level "easy") (orNat u.idx 1 + 1))]) ∧
        nextOp L f user_id chat_id (some u) =
          (some ⟨u.user_id, u.chat_id, u.level, orNat u.idx 1 + 1, true, u.correct_count,
             contentOf f (orStr u.level "easy") (orNat u.idx 1 + 1)⟩,
           [Reply.advanced,
            Reply.lesson (orStr u.level "easy") (orNat u.idx 1 + 1)
              (contentOf f (orStr u.level "easy") (orNat u.idx 1 + 1))]))) ∧
    (∀ (f : String → Nat → String) (user_id chat_id : Nat) (n : Nat), n ≤ 24 →
      (fun s => (skipOp 25 f user_id chat_id s).1)^[n]
          (select_level 25 f "oson" user_id chat_id none).1 =
        some (lessonState user_id chat_id f (1 + n))) ∧
    (∀ (f : String → Nat → String) (user_id chat_id : Nat),
      skipOp 25 f user_id chat_id (some (lessonState user_id chat_id f 25)) =
        (some ⟨user_id, chat_id, "easy", 1, false, 0, ""⟩, [Reply.completion])) := by
  refine ⟨?_, ?_, ?_⟩
  · intro L f user_id chat_id u
    exact ⟨fun h => ⟨skipOp_complete f user_id chat_id u h,
                     nextOp_complete f user_id chat_id u h⟩,
           fun h => ⟨skipOp_issue f user_id chat_id u h,
                     nextOp_issue f user_id chat_id u h⟩⟩
  · intro f user_id chat_id n h
    rw [select_oson_fresh]
    exact skip_progression f user_id chat_id n h
  · intro f user_id chat_id
    exact skipOp_complete f user_id chat_id _ (by show 25 < orNat 25 1 + 1; decide)

/-- Witness for C1: 24 concrete skips from a fresh easy-level selection
reach position 25 without completion. -/
theorem c1_witness :
    24 ≤ 24 ∧
    (fun s => (skipOp 25 (fun _ _ => "") 1 2 s).1)^[24]
        (select_level 25 (fun _ _ => "") "oson" 1 2 none).1 =
      some (lessonState 1 2 (fun _ _ => "") 25) :=
  ⟨le_rfl, c1_skip_next_transition.2.1 (fun _ _ => "") 1 2 24 le_rfl⟩

/-- Counterexample for C1 as stated: completing a level through the skip
path does not reset `correct_count` to 0 — a user with 5 accepted
answers at position 25 still has `correct_count = 5` after the
completion reset. -/
theorem c1_counterexample :
    skipOp 25 (fun _ _ => "") 1 2 (some ⟨1, 2, "easy", 25, false, 5, "txt"⟩) =
      (some ⟨1, 2, "easy", 1, false, 5, ""⟩, [Reply.completion]) ∧
    (5 : Nat) ≠ 0 := by
  exact ⟨by decide, by decide⟩

/-- C2: with a row awaiting an answer, both the voice and the text
verifier accept exactly when the similarity of the candidate (stripped,
on the text path) against the effective expected text reaches the fixed
threshold `0.75`; below it they reject. -/
theorem c2_threshold_rule :
    THRESHOLD = 75 / 100 ∧
    ∀ (f : String → Nat → String) (cand : String) (user_id chat_id : Nat)
      (u : UserProgress), u.awaiting = true →
      ((voice_verify f cand user_id chat_id (some u)).2 = [Reply.correct] ↔
        THRESHOLD ≤ similarity (effectiveExpected f u) cand) ∧
      ((voice_verify f cand user_id chat_id (some u)).2 = [Reply.incorrect] ↔
        similarity (effectiveExpected f u) cand < THRESHOLD) ∧
      ((text_verify f cand user_id chat_id (some u)).2 = [Reply.correct] ↔
        THRESHOLD ≤ similarity (effectiveExpected f u) (pyStrip cand)) ∧
      ((text_verify f cand user_id chat_id (some u)).2 = [Reply.incorrect] ↔
        similarity (effectiveExpected f u) (pyStrip cand) < THRESHOLD) := by
  refine ⟨rfl, ?_⟩
  intro f cand user_id chat_id u h
  have h' : ¬ (u.awaiting = false) := by simp [h]
  refine ⟨?_, ?_, ?_, ?_⟩
  · simp only [voice_verify]
    rw [if_neg h']
    by_cases hsim : THRESHOLD ≤ similarity (effectiveExpected f u) cand
    · rw [if_pos hsim]
      simp [hsim]
    · rw [if_neg hsim]
      simp [hsim]
  · simp only [voice_verify]
    rw [if_neg h']
    by_cases hsim : THRESHOLD ≤ similarity (effectiveExpected f u) cand
    · rw [if_pos hsim]
      simp [hsim, not_lt.mpr hsim]
    · rw [if_neg hsim]
      simp [lt_of_not_le hsim]
  · simp only [text_verify]
    rw [if_neg h']
    by_cases hsim : THRESHOLD ≤ similarity (effectiveExpected f u) (pyStrip cand)
    · rw [if_pos hsim]
      simp [hsim]
    · rw [if_neg hsim]
      simp [hsim]
  · simp only [text_verify]
    rw [if_neg h']
    by_cases hsim : THRESHOLD ≤ similarity (effectiveExpected f u) (pyStrip cand)
    · rw [if_pos hsim]
      simp [hsim, not_lt.mpr hsim]
    · rw [if_neg hsim]
      simp [lt_of_not_le hsim]

/-- Witness for C2: a candidate scoring exactly `3/4 = 0.75` against the
expected text is accepted by the voice verifier. -/
theorem c2_witness :
    similarity "abc" "abcde" = 3 / 4 ∧
    (voice_verify (fun _ _ => "") "abcde" 1 2
        (some ⟨1, 2, "easy", 1, true, 0, "abc"⟩)).2 = [Reply.correct] :=
  ⟨sim_abc_abcde,
   (c2_threshold_rule.2 (fun _ _ => "") "abcde" 1 2 _ rfl).1.mpr (by
     have he : effectiveExpected (fun _ _ => "") ⟨1, 2, "easy", 1, true, 0, "abc"⟩ =
         "abc" := by decide
     rw [he, sim_abc_abcde]
     norm_num [THRESHOLD])⟩

/-- C3 (amended): in every state reachable from the fresh user record by
level selection, lesson issuance, skip, next, verification, and retry
restricted to states that hold a lesson text, `awaiting_answer = true`
implies `expected_text` is non-empty.  (Unrestricted retry falsifies the
original claim: see the counterexample.) -/
theorem c3_awaiting_invariant (user_id chat_id : Nat) (s : Option UserProgress)
    (h : Reach user_id chat_id s) :
    ∀ u, s = some u → u.awaiting = true → u.expected_text ≠ "" :=
  reach_awaitingInv h

/-- Witness for C3: the state reached by selecting the easy level from
the fresh record is awaiting with the (non-empty) placeholder text. -/
theorem c3_witness :
    (select_level 25 (fun _ _ => "") "oson" 1 2 (startOp 1 2 none)).1 =
      some ⟨1, 2, "easy", 1, true, 0, placeholderText "easy" 1⟩ ∧
    (⟨1, 2, "easy", 1, true, 0, placeholderText "easy" 1⟩ : UserProgress).expected_text
      ≠ "" :=
  ⟨by decide,
   c3_awaiting_invariant 1 2 _ (Reach.level _ 25 (fun _ _ => "") "oson" Reach.fresh) _ (by decide) rfl⟩

/-- Counterexample for C3 as stated: applying retry to the fresh record
(a sequence the claim admits) produces `awaiting_answer = true` with
`expected_text = ""`. -/
theorem c3_counterexample :
    (retryOp 1 2 (startOp 1 2 none)).1 = some ⟨1, 2, "", 1, true, 0, ""⟩ ∧
    ¬ AwaitingInv (retryOp 1 2 (startOp 1 2 none)).1 := by
  refine ⟨by decide, fun h => ?_⟩
  exact h ⟨1, 2, "", 1, true, 0, ""⟩ (by decide) rfl rfl

/-- C4 (amended): with no stored row, skip and next are rejected with the
"no state found" alert and create no row; retry, however, silently
inserts a fresh row with `awaiting = true` instead of rejecting. -/
theorem c4_no_state :
    ∀ (L : Nat) (f : String → Nat → String) (user_id chat_id : Nat),
      skipOp L f user_id chat_id none = (none, [Reply.noState]) ∧
      nextOp L f user_id chat_id none = (none, [Reply.noState]) ∧
      retryOp user_id chat_id none =
        (some ⟨user_id, chat_id, "", 1, true, 0, ""⟩, [Reply.retryPrompt]) :=
  fun _ _ _ _ => ⟨rfl, rfl, rfl⟩

/-- Counterexample for C4 as stated: a retry with no stored row creates a
row and emits no "no state found" signal. -/
theorem c4_counterexample :
    (retryOp 1 2 none).1 = some ⟨1, 2, "", 1, true, 0, ""⟩ ∧
    Reply.noState ∉ (retryOp 1 2 none).2 := by
  exact ⟨by decide, by decide⟩

/-- C5 (amended): when no row exists or the row is not awaiting an
answer, neither verifier mutates the stored state; the voice path
replies "nothing pending" while the text path replies nothing at all. -/
theorem c5_verify_preconditions :
    ∀ (f : String → Nat → String) (cand : String) (user_id chat_id : Nat)
      (db : Option UserProgress),
      (db = none ∨ ∃ u, db = some u ∧ u.awaiting = false) →
      voice_verify f cand user_id chat_id db = (db, [Reply.noTask]) ∧
      text_verify f cand user_id chat_id db = (db, []) := by
  intro f cand user_id chat_id db h
  rcases h with rfl | ⟨u, rfl, haw⟩
  · exact ⟨rfl, rfl⟩
  · constructor
    · simp [voice_verify, haw]
    · simp [text_verify, haw]

/-- Witness for C5: a non-awaiting row is left untouched by both
verifiers. -/
theorem c5_witness :
    voice_verify (fun _ _ => "") "hi" 1 2 (some ⟨1, 2, "", 1, false, 0, ""⟩) =
      (some ⟨1, 2, "", 1, false, 0, ""⟩, [Reply.noTask]) ∧
    text_verify (fun _ _ => "") "hi" 1 2 (some ⟨1, 2, "", 1, false, 0, ""⟩) =
      (some ⟨1, 2, "", 1, false, 0, ""⟩, []) :=
  c5_verify_preconditions _ "hi" 1 2 _ (Or.inr ⟨_, rfl, rfl⟩)

/-- Counterexample for C5 as stated: the text submission path sends no
"nothing pending" response at all when nothing is pending. -/
theorem c5_counterexample :
    text_verify (fun _ _ => "") "hi" 1 2 (some ⟨1, 2, "", 1, false, 0, ""⟩) =
      (some ⟨1, 2, "", 1, false, 0, ""⟩, []) ∧
    Reply.noTask ∉
      (text_verify (fun _ _ => "") "hi" 1 2 (some ⟨1, 2, "", 1, false, 0, ""⟩)).2 := by
  exact ⟨by decide, by decide⟩

/-- C6: on acceptance (similarity at or above the threshold), both
verifiers set `awaiting = false` and increment `correct_count` by exactly
one, leaving `user_id`, `chat_id`, `level`, `position` and
`expected_text` unchanged, and emit only the acceptance reply — no lesson
is issued, so no automatic advance happens. -/
theorem c6_accept_frame :
    ∀ (f : String → Nat → String) (cand : String) (user_id chat_id : Nat)
      (u : UserProgress), u.awaiting = true →
      (THRESHOLD ≤ similarity (effectiveExpected f u) cand →
        voice_verify f cand user_id chat_id (some u) =
          (some ⟨u.user_id, u.chat_id, u.level, u.idx, false, u.correct_count + 1,
             u.expected_text⟩, [Reply.correct])) ∧
      (THRESHOLD ≤ similarity (effectiveExpected f u) (pyStrip cand) →
        text_verify f cand user_id chat_id (some u) =
          (some ⟨u.user_id, u.chat_id, u.level, u.idx, false, u.correct_count + 1,
             u.expected_text⟩, [Reply.correct])) := by
  intro f cand user_id chat_id u h
  have h' : ¬ (u.awaiting = false) := by simp [h]
  constructor
  · intro hsim
    simp only [voice_verify]
    rw [if_neg h', if_pos hsim]
    simp [create_or_update_user, orNat_zero_right]
  · intro hsim
    simp only [text_verify]
    rw [if_neg h', if_pos hsim]
    simp [create_or_update_user, orNat_zero_right]

/-- Witness for C6: an exact answer is accepted; `correct_count` goes
from 0 to 1, position and expected text stay. -/
theorem c6_witness :
    voice_verify (fun _ _ => "") "abc" 1 2 (some ⟨1, 2, "easy", 1, true, 0, "abc"⟩) =
      (some ⟨1, 2, "easy", 1, false, 1, "abc"⟩, [Reply.correct]) :=
  (c6_accept_frame (fun _ _ => "") "abc" 1 2 _ rfl).1 (by
    have he : effectiveExpected (fun _ _ => "") ⟨1, 2, "easy", 1, true, 0, "abc"⟩ =
        "abc" := by decide
    rw [he, similarity_of_norm_eq rfl (by decide)]
    norm_num [THRESHOLD])

/-- C7: the normalizer sends the running example to `"hello world"`,
sends the empty (or, in Python, null — both falsy) input to `""`, and on
every input produces a string with no character of the fixed punctuation
set, every character fixed by lower-casing, whitespace only as single
interior `' '` separators (no run of two spaces, no leading or trailing
space).  Purity and determinism are inherent to the embedding as a
function. -/
theorem c7_normalize_contract :
    normalize_text " Hello,  World! " = "hello world" ∧
    normalize_text "" = "" ∧
    ∀ t : String,
      (∀ c ∈ (normalize_text t).data,
        c ∉ punctChars ∧ c.toLower = c ∧ (c.isWhitespace = true → c = ' ')) ∧
      List.Chain' (fun a b => ¬(a = ' ' ∧ b = ' ')) (normalize_text t).data ∧
      (∀ c ∈ (normalize_text t).data.head?, c ≠ ' ') ∧
      (∀ c ∈ (normalize_text t).data.getLast?, c ≠ ' ') :=
  ⟨by decide, by decide, fun t =>
    ⟨normalize_text_chars t, (normalize_text_shape t).1,
     (normalize_text_shape t).2.1, (normalize_text_shape t).2.2⟩⟩

/-- Witness for C7: the character `'h'` of the normalized running
example is punctuation-free, lower-case-fixed and not whitespace. -/
theorem c7_witness :
    'h' ∈ (normalize_text " Hello,  World! ").data ∧
    'h' ∉ punctChars ∧ 'h'.toLower = 'h' ∧ ('h'.isWhitespace = true → 'h' = ' ') :=
  ⟨by decide, (c7_normalize_contract.2.2 " Hello,  World! ").1 'h' (by decide)⟩

/-- C8: the similarity score always lies in `[0, 1]`; it is `0` whenever
either normalized input is empty, and `1` whenever the two inputs are
equal and non-empty after normalization — in particular on the spec's
examples. -/
theorem c8_similarity_contract :
    (∀ a b : String, 0 ≤ similarity a b ∧ similarity a b ≤ 1) ∧
    (∀ a b : String, (normalize_text a = "" ∨ normalize_text b = "") →
      similarity a b = 0) ∧
    (∀ a b : String, normalize_text a = normalize_text b →
      normalize_text a ≠ "" → similarity a b = 1) ∧
    similarity "" "anything" = 0 ∧
    similarity "привет" "привет" = 1 ∧
    similarity "привет" "привет!" = 1 :=
  ⟨fun a b => ⟨similarity_nonneg a b, similarity_le_one a b⟩,
   fun a b h => similarity_empty h,
   fun a b heq hne => similarity_of_norm_eq heq hne,
   similarity_empty (Or.inl (by decide)),
   similarity_of_norm_eq rfl (by decide),
   sim_privet⟩

/-- Witness for C8: the punctuation-insensitive exact match example. -/
theorem c8_witness : similarity "привет" "привет!" = 1 :=
  c8_similarity_contract.2.2.1 "привет" "привет!" (by decide) (by decide)

/-- C9: the content fetch returns the stripped body exactly on a 200
response with a configured base, and the empty string on a missing base,
a raised network exception, or a non-200 status; the embedding is a
total function, so no exception propagates. -/
theorem c9_fetch_contract :
    ∀ (baseUrl : String) (net : String → HttpResult) (l : String) (i : Nat),
      (baseUrl = "" → fetch_text_from_base baseUrl net l i = "") ∧
      (net (lessonUrl baseUrl l i) = HttpResult.error →
        fetch_text_from_base baseUrl net l i = "") ∧
      (∀ s b, net (lessonUrl baseUrl l i) = HttpResult.ok s b → s ≠ 200 →
        fetch_text_from_base baseUrl net l i = "") ∧
      (∀ b, baseUrl ≠ "" → net (lessonUrl baseUrl l i) = HttpResult.ok 200 b →
        fetch_text_from_base baseUrl net l i = pyStrip b) := by
  intro base net l i
  refine ⟨?_, ?_, ?_, ?_⟩
  · intro h
    simp [fetch_text_from_base, h]
  · intro h
    by_cases hb : base = ""
    · simp [fetch_text_from_base, hb]
    · simp [fetch_text_from_base, hb, h]
  · intro s b h hs
    by_cases hb : base = ""
    · simp [fetch_text_from_base, hb]
    · simp [fetch_text_from_base, hb, h, hs]
  · intro b hb h
    simp [fetch_text_from_base, hb, h]

/-- Witness for C9: a 200 response body is returned stripped. -/
theorem c9_witness :
    ("http://x" : String) ≠ "" ∧
    fetch_text_from_base "http://x" (fun _ => HttpResult.ok 200 " hi ") "easy" 1 =
      pyStrip " hi " :=
  ⟨by decide,
   (c9_fetch_contract "http://x" (fun _ => HttpResult.ok 200 " hi ") "easy" 1).2.2.2
     " hi " (by decide) rfl⟩

/-- C10: retry on any existing row only sets `awaiting = true`, keeping
`expected_text`, `position` (`idx`), `level` and `correct_count`; running
it twice gives the same stored state as running it once. -/
theorem c10_retry_idempotent :
    ∀ (user_id chat_id : Nat) (u : UserProgress),
      retryOp user_id chat_id (some u) =
        (some ⟨u.user_id, u.chat_id, u.level, u.idx, true, u.correct_count,
           u.expected_text⟩, [Reply.retryPrompt]) ∧
      (retryOp user_id chat_id (retryOp user_id chat_id (some u)).1).1 =
        (retryOp user_id chat_id (some u)).1 :=
  fun _ _ _ => ⟨rfl, rfl⟩
